import Mathlib

/-!
Shallow embedding of the membership engine in src/solution/member.py
(class GroupMember).

Modelling choices, each noted where it matters:
* Python dicts (the added/removed registers, gossip samples) are association
  lists, List (String × Entry); insertion overwrites in place, deletion
  filters the key out.  All claims are stated at lookup/membership level,
  so list order never matters.
* Python sets (the cached active view) are lists; set.add is a guarded cons,
  set.discard filters.  Again only membership is used.
* Wall-clock timestamps and the watermark are Int (they are only compared
  and maxed; the -1.0 bootstrap sentinel becomes -1).
* random.sample inside _serialize_sample is abstracted as an arbitrary
  sampling function parameter samp; random.choice in _periodic_ping as an
  arbitrary chooser parameter.
* The _waiting_answer dict is a total function String → Int with default 0,
  matching the source which only reads it through .get(key, 0); Python's
  del is modelled as resetting to the default 0 (observationally identical,
  since the dict is never iterated).
* Timer names "periodic_ping" and "ping_" + target are the two constructors
  of TimerId (the string prefix encoding is injective because
  "periodic_ping" does not start with "ping_").
* Wire messages carry Option fields: a field absent from the Python dict is
  none; the try/except defaulting in the handlers becomes Option.getD.
  Per-entry fields timestamp/generation are always present on the wire
  (the serializer emits both), so sample entries are total pairs.
-/

/-- A register entry: (timestamp, generation), as stored in
_added_members / _removed_members. -/
def Entry := Int × Int

instance : DecidableEq Entry := instDecidableEqProd

/-- A register (Python dict ProcessId → (timestamp, generation)). -/
def Reg := List (String × Entry)

instance : DecidableEq Reg := instDecidableEqList

/-- A gossip sample, same shape as a register. -/
def Sample := List (String × Entry)

instance : DecidableEq Sample := instDecidableEqList

/-- First-match association-list lookup (Python dict indexing / .get). -/
def alookup {α : Type} : List (String × α) → String → Option α
  | [], _ => none
  | (q, v) :: t, p => if q = p then some v else alookup t p

/-- Dict store d[k] = v: overwrite the first binding of k in place, or
append a fresh binding at the end (Python dicts keep insertion order). -/
def upsert {α : Type} : List (String × α) → String → α → List (String × α)
  | [], k, v => [(k, v)]
  | (q, w) :: t, k, v => if q = k then (k, v) :: t else (q, w) :: upsert t k v

/-- Dict deletion del d[k]. -/
def adelete {α : Type} : List (String × α) → String → List (String × α)
  | [], _ => []
  | (q, w) :: t, k => if q = k then adelete t k else (q, w) :: adelete t k

/-- Python set.add on the cached active view. -/
def sadd (l : List String) (p : String) : List String :=
  if p ∈ l then l else p :: l

/-- Python set.discard on the cached active view. -/
def sdiscard (l : List String) (p : String) : List String :=
  l.filter (fun q => q != p)

/-- Probe period T = 5.0 seconds. -/
def T : Int := 5

/-- Suspicion multiplier S = 3. -/
def S : Int := 3

/-- Fan-out K = 2. -/
def K : Nat := 2

/-- SAMPLE_SIZE = 20 (only consumed by the abstracted sampler). -/
def SAMPLE_SIZE : Nat := 20

/-- Timer identities: the recurring probe timer and the per-target
suspicion timers named by string concatenation in the source. -/
inductive TimerId where
  | periodicPing : TimerId
  | pingT : String → TimerId
deriving DecidableEq

/-- Wire messages.  Option fields model keys that may be absent from the
Python payload dict. -/
inductive Msg where
  | ping : Option Sample → Option Sample → Option Int → Option String → Msg
  | pingAnswer : Option Sample → Option Sample → Option Int → Msg
deriving DecidableEq

/-- Local commands from the host. -/
inductive LMsg where
  | join : String → LMsg
  | leave : LMsg
  | getMembers : LMsg
deriving DecidableEq

/-- Effects emitted during one callback: network sends, local replies
(MEMBERS payloads), timer arms, timer cancels, in emission order. -/
structure Out where
  sends : List (Msg × String)
  locals : List (List String)
  timers : List (TimerId × Int)
  cancels : List TimerId
deriving DecidableEq

/-- No effects. -/
def emptyOut : Out := ⟨[], [], [], []⟩

/-- The state of one GroupMember instance. -/
structure Engine where
  id : String
  joined : Bool
  time : Int
  generation : Int
  added : Reg
  removed : Reg
  waiting : String → Int
  active : List String

/-- GroupMember.__init__. -/
def initEngine (pid : String) : Engine :=
  ⟨pid, false, 0, 0, [], [], fun _ => 0, []⟩

/-- _mark_added: bump the generation, write added[p], delete removed[p]
when the fresh timestamp strictly exceeds the stored one, raise the
watermark, insert p into the cached active set. -/
def mark_added (e : Engine) (p : String) (ts : Int) : Engine :=
  let g := e.generation + 1
  let added' := upsert e.added p (ts, g)
  let removed' :=
    match alookup e.removed p with
    | some (ts0, _) => if ts > ts0 then adelete e.removed p else e.removed
    | none => e.removed
  { e with generation := g, added := added', removed := removed',
           time := max e.time g, active := sadd e.active p }

/-- _mark_removed: bump the generation, write removed[p], delete added[p]
when the fresh generation strictly exceeds the stored one, raise the
watermark, discard p from the cached active set. -/
def mark_removed (e : Engine) (p : String) (ts : Int) : Engine :=
  let g := e.generation + 1
  let removed' := upsert e.removed p (ts, g)
  let added' :=
    match alookup e.added p with
    | some (_, ag) => if g > ag then adelete e.added p else e.added
    | none => e.added
  { e with generation := g, added := added', removed := removed',
           time := max e.time g, active := sdiscard e.active p }

/-- _get_active_members: walk the added register keys; a key is active when
it has no removed entry, or its added generation strictly exceeds the
removed one (the source re-reads both registers by key). -/
def get_active_members (added removed : Reg) : List String :=
  (added.map Prod.fst).filter (fun p =>
    match alookup removed p with
    | none => true
    | some (_, rg) =>
      match alookup added p with
      | some (_, ag) => decide (ag > rg)
      | none => false)

/-- One iteration of the first loop of _merge_crdt_sample: an incoming
added-sample entry overwrites when its generation strictly dominates, and
then deletes the removed entry if that is strictly dominated too. -/
def mergeAddedEntry (st : Engine) (ent : String × Entry) : Engine :=
  let p := ent.1
  let ts := ent.2.1
  let g := ent.2.2
  let curGen := ((alookup st.added p).getD ((0 : Int), (-1 : Int))).2
  if g > curGen then
    let removed' :=
      match alookup st.removed p with
      | some (_, rg) => if rg < g then adelete st.removed p else st.removed
      | none => st.removed
    { st with added := upsert st.added p (ts, g), removed := removed' }
  else st

/-- One iteration of the second loop of _merge_crdt_sample (removed side,
symmetric). -/
def mergeRemovedEntry (st : Engine) (ent : String × Entry) : Engine :=
  let p := ent.1
  let ts := ent.2.1
  let g := ent.2.2
  let curGen := ((alookup st.removed p).getD ((0 : Int), (-1 : Int))).2
  if g > curGen then
    let added' :=
      match alookup st.added p with
      | some (_, ag) => if ag < g then adelete st.added p else st.added
      | none => st.added
    { st with removed := upsert st.removed p (ts, g), added := added' }
  else st

/-- _merge_crdt_sample: raise the watermark, fold the added sample, fold
the removed sample, recompute the cached active set from scratch. -/
def merge_crdt_sample (e : Engine) (addS remS : Sample) (t : Int) : Engine :=
  let e1 := { e with time := max e.time t }
  let e2 := addS.foldl mergeAddedEntry e1
  let e3 := remS.foldl mergeRemovedEntry e2
  { e3 with active := get_active_members e3.added e3.removed }

/-- _create_group: unconditionally set joined, mark self added at the
current wall clock, add self to the active set, start the probe timer. -/
def create_group (now : Int) (e : Engine) : Engine × Out :=
  let e1 := { e with joined := true }
  let e2 := mark_added e1 e1.id now
  let e3 := { e2 with active := sadd e2.active e2.id }
  (e3, ⟨[], [], [(TimerId.periodicPing, T)], []⟩)

/-- _join_group: no-op when already joined; otherwise mark self added with
the -1 bootstrap sentinel, send K bootstrap PINGs to the seed, start the
probe timer.  (The source serializes a fresh random sample for each of the
K copies; under the abstracted sampler the copies coincide.) -/
def join_group (samp : Reg → Sample) (e : Engine) (seed : String) :
    Engine × Out :=
  if e.joined then (e, emptyOut)
  else
    let e1 := { e with joined := true }
    let e2 := mark_added e1 e1.id (-1)
    let e3 := { e2 with active := sadd e2.active e2.id }
    let msg := Msg.ping (some (samp e3.added)) (some (samp e3.removed))
      (some e3.time) none
    (e3, ⟨List.replicate K (msg, seed), [], [(TimerId.periodicPing, T)], []⟩)

/-- _leave_group: no-op when not joined; otherwise clear joined, mark self
removed, discard self from the active set, cancel the probe timer. -/
def leave_group (now : Int) (e : Engine) : Engine × Out :=
  if e.joined then
    let e1 := { e with joined := false }
    let e2 := mark_removed e1 e1.id now
    let e3 := { e2 with active := sdiscard e2.active e2.id }
    (e3, ⟨[], [], [], [TimerId.periodicPing]⟩)
  else (e, emptyOut)

/-- on_local_message: JOIN dispatches on seed = self, LEAVE, and
GET_MEMBERS replies locally with a fresh _get_active_members projection. -/
def on_local_message (samp : Reg → Sample) (now : Int) (e : Engine)
    (m : LMsg) : Engine × Out :=
  match m with
  | LMsg.join seed =>
    if seed = e.id then create_group now e else join_group samp e seed
  | LMsg.leave => leave_group now e
  | LMsg.getMembers =>
    (e, ⟨[], [get_active_members e.added e.removed], [], []⟩)

/-- _ping_with_retransmitters: one PING payload carrying the target field,
sent to the first min(K, len) entries of active minus self and target. -/
def ping_with_retransmitters (samp : Reg → Sample) (e : Engine)
    (target : String) : List (Msg × String) :=
  let candidates := e.active.filter (fun p => p != e.id && p != target)
  let retransmitters := candidates.take (min K candidates.length)
  let msg := Msg.ping (some (samp e.added)) (some (samp e.removed))
    (some e.time) (some target)
  retransmitters.map (fun r => (msg, r))

/-- The tail of _on_ping after the relay check: learn the sender, then
answer with fresh samples and the current watermark. -/
def ping_respond (samp : Reg → Sample) (now : Int) (e1 : Engine)
    (sender : String) : Engine × Out :=
  let e2 :=
    if (alookup e1.added sender).isNone then mark_added e1 sender now
    else if (alookup e1.removed sender).isSome then
      let addedGen := ((alookup e1.added sender).getD ((0 : Int), (-1 : Int))).2
      let removedGen := ((alookup e1.removed sender).getD ((0 : Int), (-1 : Int))).2
      let e' := if removedGen ≥ addedGen then mark_added e1 sender now else e1
      { e' with active := sadd e'.active sender }
    else e1
  let resp := Msg.pingAnswer (some (samp e2.added)) (some (samp e2.removed))
    (some e2.time)
  (e2, ⟨[(resp, sender)], [], [], []⟩)

/-- _on_ping: default the missing payload fields, merge, then either relay
the original message verbatim to a foreign target and stop, or run the
learn-sender logic and answer. -/
def on_ping (samp : Reg → Sample) (now : Int) (e : Engine) (sender : String)
    (addS remS : Option Sample) (tv : Option Int) (tg : Option String) :
    Engine × Out :=
  let e1 := merge_crdt_sample e (addS.getD []) (remS.getD []) (tv.getD 0)
  match tg with
  | some target =>
    if target = e.id then ping_respond samp now e1 sender
    else (e1, ⟨[(Msg.ping addS remS tv tg, target)], [], [], []⟩)
  | none => ping_respond samp now e1 sender

/-- _on_ping_answer: default the missing payload fields, merge, clear a
live suspicion entry (set it to 0 and cancel the suspicion timer), learn
the sender, force it into the cached active set. -/
def on_ping_answer (samp : Reg → Sample) (now : Int) (e : Engine)
    (sender : String) (addS remS : Option Sample) (tv : Option Int) :
    Engine × Out :=
  let e1 := merge_crdt_sample e (addS.getD []) (remS.getD []) (tv.getD 0)
  let cleared := e1.waiting sender > 0
  let e2 := if cleared then
      { e1 with waiting := fun q => if q = sender then 0 else e1.waiting q }
    else e1
  let cancels := if cleared then [TimerId.pingT sender] else []
  let e3 := if (alookup e2.added sender).isNone then mark_added e2 sender now
    else e2
  let e4 := { e3 with active := sadd e3.active sender }
  (e4, ⟨[], [], [], cancels⟩)

/-- _periodic_ping: skip (but re-arm) when not joined or with no foreign
candidate; otherwise pick a target, set its suspicion state to 1, send a
direct PING, arm the suspicion timer for T*S and the probe timer for T. -/
def periodic_ping (samp : Reg → Sample) (chooser : List String → String)
    (e : Engine) : Engine × Out :=
  if !e.joined || e.active.isEmpty then
    (e, ⟨[], [], [(TimerId.periodicPing, T)], []⟩)
  else
    let candidates := e.active.filter (fun p => p != e.id)
    if candidates.isEmpty then (e, ⟨[], [], [(TimerId.periodicPing, T)], []⟩)
    else
      let target := chooser candidates
      let e1 := { e with waiting := fun q => if q = target then 1 else e.waiting q }
      let msg := Msg.ping (some (samp e.added)) (some (samp e.removed))
        (some e.time) none
      (e1, ⟨[(msg, target)], [],
        [(TimerId.pingT target, T * S), (TimerId.periodicPing, T)], []⟩)

/-- on_timer: a ping_<target> fire escalates state 1 to 2 (indirect probe
through retransmitters, re-armed for T*S), resolves state 2 by marking the
target removed and erasing the entry, and ignores state 0; the periodic
timer runs _periodic_ping. -/
def on_timer (samp : Reg → Sample) (chooser : List String → String)
    (now : Int) (e : Engine) (tid : TimerId) : Engine × Out :=
  match tid with
  | TimerId.pingT target =>
    let status := e.waiting target
    if status = 1 then
      let e1 := { e with waiting := fun q => if q = target then 2 else e.waiting q }
      (e1, ⟨ping_with_retransmitters samp e1 target, [],
        [(TimerId.pingT target, T * S)], []⟩)
    else if status = 2 then
      let e1 := mark_removed e target now
      let e2 := { e1 with waiting := fun q => if q = target then 0 else e1.waiting q }
      (e2, emptyOut)
    else (e, emptyOut)
  | TimerId.periodicPing => periodic_ping samp chooser e

/-- on_message: dispatch on the wire message type. -/
def on_message (samp : Reg → Sample) (now : Int) (e : Engine)
    (sender : String) (m : Msg) : Engine × Out :=
  match m with
  | Msg.ping a r t tg => on_ping samp now e sender a r t tg
  | Msg.pingAnswer a r t => on_ping_answer samp now e sender a r t

/-- The trivial sampler (an admissible value of the abstracted
random.sample: the empty sample), used for concrete runs. -/
def samp0 : Reg → Sample := fun _ => []

/-- A chooser that always picks "b" (an admissible value of the abstracted
random.choice whenever "b" is among the candidates), used for concrete
runs. -/
def chooser0 : List String → String := fun _ => "b"

/-- Generation of an optional register entry, absent read as -1, exactly
the .get(p, (0, -1))[1] idiom of the source. -/
def kgen : Option Entry → Int
  | none => -1
  | some e => e.2

/-- The per-key state: the pair (added entry, removed entry) for one
ProcessId. -/
def KS := Option Entry × Option Entry

/-- Per-key view of one engine: the pair of register entries for p. -/
def kproj (e : Engine) (p : String) : KS :=
  (alookup e.added p, alookup e.removed p)

/-- Per-key effect of one added-sample entry (none: the key is absent from
the sample).  In the overwriting branch, a removed entry disappears exactly
when its generation is strictly below the incoming one; an absent removed
entry stays absent, which the single conditional below also expresses. -/
def kAddStep (α : Option Entry) (s : KS) : KS :=
  match α with
  | none => s
  | some (ts, g) =>
    if g > kgen s.1 then (some (ts, g), if kgen s.2 < g then none else s.2)
    else s

/-- Per-key effect of one removed-sample entry. -/
def kRemStep (ρ : Option Entry) (s : KS) : KS :=
  match ρ with
  | none => s
  | some (ts, g) =>
    if g > kgen s.2 then ((if kgen s.1 < g then none else s.1), some (ts, g))
    else s

/-- Per-key effect of one whole merge: the added pass then the removed
pass, in the order the two loops of _merge_crdt_sample run. -/
def kMerge (α ρ : Option Entry) (s : KS) : KS :=
  kRemStep ρ (kAddStep α s)

/-- Per-key activity: the predicate _get_active_members applies to each
added key (present in added, and absent from removed or strictly
dominating it). -/
def kActive (s : KS) : Bool :=
  s.1.isSome && (s.2.isNone || decide (kgen s.1 > kgen s.2))

/-- Wellformedness of a per-key state: present entries carry non-negative
generations (an invariant of every reachable engine state, since local
marks stamp generations from 1 and merges only import strictly larger
generations than the -1 absent default). -/
def wfK (s : KS) : Prop :=
  (∀ en : Entry, s.1 = some en → 0 ≤ en.2) ∧
  (∀ en : Entry, s.2 = some en → 0 ≤ en.2)

/-- The running-maximum invariant tying a per-key state to the largest
added generation A and removed generation R applied so far. -/
def kInv (s : KS) (A R : Int) : Prop :=
  wfK s ∧ kgen s.1 ≤ A ∧ kgen s.2 ≤ R ∧
  max (kgen s.1) (kgen s.2) = max A R ∧ (A ≤ R → kgen s.1 ≤ kgen s.2)

/-! ### Association-list and set lemmas -/

theorem alookup_upsert {α : Type} (l : List (String × α)) (k : String)
    (v : α) (p : String) :
    alookup (upsert l k v) p = if k = p then some v else alookup l p := by
  induction l with
  | nil =>
    by_cases hkp : k = p <;> simp [upsert, alookup, hkp]
  | cons hd t ih =>
    obtain ⟨q, w⟩ := hd
    by_cases hqk : q = k
    · subst hqk
      by_cases hqp : q = p <;> simp [upsert, alookup, hqp]
    · by_cases hqp : q = p
      · subst hqp
        have hkp : ¬ k = q := fun h => hqk h.symm
        simp [upsert, alookup, hqk, hkp]
      · simp [upsert, alookup, hqk, hqp, ih]

theorem alookup_adelete {α : Type} (l : List (String × α)) (k p : String) :
    alookup (adelete l k) p = if k = p then none else alookup l p := by
  induction l with
  | nil =>
    by_cases hkp : k = p <;> simp [adelete, alookup, hkp]
  | cons hd t ih =>
    obtain ⟨q, w⟩ := hd
    by_cases hqk : q = k
    · have h1 : adelete ((q, w) :: t) k = adelete t k := by
        simp [adelete, hqk]
      rw [h1, ih]
      by_cases hkp : k = p
      · simp [hkp]
      · have hqp : ¬ q = p := by rw [hqk]; exact hkp
        simp [alookup, hkp, hqp]
    · have h1 : adelete ((q, w) :: t) k = (q, w) :: adelete t k := by
        simp [adelete, hqk]
      rw [h1]
      by_cases hqp : q = p
      · have hkp : ¬ k = p := by
          rw [← hqp]
          exact fun h => hqk h.symm
        simp [alookup, hqp, hkp]
      · simp [alookup, hqp, ih]

theorem alookup_eq_none_iff {α : Type} (l : List (String × α)) (p : String) :
    alookup l p = none ↔ p ∉ l.map Prod.fst := by
  induction l with
  | nil => simp [alookup]
  | cons hd t ih =>
    obtain ⟨q, w⟩ := hd
    by_cases hqp : q = p
    · subst hqp
      simp [alookup]
    · have hpq : ¬ p = q := fun h => hqp h.symm
      simp [alookup, hqp, hpq, ih]

theorem alookup_cons {α : Type} (q : String) (v : α) (t : List (String × α))
    (p : String) :
    alookup ((q, v) :: t) p = if q = p then some v else alookup t p := rfl

theorem mem_keys_iff {α : Type} (l : List (String × α)) (p : String) :
    p ∈ l.map Prod.fst ↔ ¬ (alookup l p = none) := by
  have h := (alookup_eq_none_iff l p).not
  simp only [not_not] at h
  exact h.symm

theorem mem_sadd (l : List String) (p q : String) :
    q ∈ sadd l p ↔ q = p ∨ q ∈ l := by
  unfold sadd
  by_cases h : p ∈ l
  · rw [if_pos h]
    constructor
    · exact fun hq => Or.inr hq
    · rintro (rfl | hq)
      · exact h
      · exact hq
  · rw [if_neg h]
    simp [List.mem_cons]

theorem mem_sdiscard (l : List String) (p q : String) :
    q ∈ sdiscard l p ↔ q ∈ l ∧ q ≠ p := by
  simp [sdiscard]

theorem kgen_getD (o : Option Entry) :
    ((o.getD ((0 : Int), (-1 : Int))).2) = kgen o := by
  rcases o with _ | e <;> simp [kgen]

theorem mem_get_active_members (added removed : Reg) (p : String) :
    p ∈ get_active_members added removed ↔
      kActive (alookup added p, alookup removed p) = true := by
  unfold get_active_members
  rw [List.mem_filter, mem_keys_iff]
  rcases ha : alookup added p with _ | ⟨tsa, ga⟩ <;>
    rcases hr : alookup removed p with _ | ⟨tsr, gr⟩ <;>
      simp [kActive, kgen, ha, hr]

/-! ### Per-key merge algebra -/

theorem kgen_none : kgen none = -1 := rfl

theorem kgen_some (ts g : Int) : kgen (some (ts, g)) = g := rfl

theorem kgen_some_entry (en : Entry) : kgen (some en) = en.2 := rfl

theorem kAddStep_none (s : KS) : kAddStep none s = s := rfl

theorem kRemStep_none (s : KS) : kRemStep none s = s := rfl

theorem kAddStep_some (ts g : Int) (s : KS) :
    kAddStep (some (ts, g)) s =
      if g > kgen s.1 then (some (ts, g), if kgen s.2 < g then none else s.2)
      else s := rfl

theorem kRemStep_some (ts g : Int) (s : KS) :
    kRemStep (some (ts, g)) s =
      if g > kgen s.2 then ((if kgen s.1 < g then none else s.1), some (ts, g))
      else s := rfl

theorem wfK_bounds {s : KS} (h : wfK s) : -1 ≤ kgen s.1 ∧ -1 ≤ kgen s.2 := by
  obtain ⟨h1, h2⟩ := h
  constructor
  · rcases hs : s.1 with _ | en
    · rw [kgen_none]
    · have := h1 en hs
      rw [kgen_some_entry]
      omega
  · rcases hs : s.2 with _ | en
    · rw [kgen_none]
    · have := h2 en hs
      rw [kgen_some_entry]
      omega

theorem kInv_init {s : KS} (h : wfK s) : kInv s (kgen s.1) (kgen s.2) :=
  ⟨h, le_refl _, le_refl _, rfl, fun hle => hle⟩

theorem kInv_addStep (α : Option Entry) {s : KS} {A R : Int}
    (h : kInv s A R) : kInv (kAddStep α s) (max A (kgen α)) R := by
  obtain ⟨hw, h1, h2, h3, h4⟩ := h
  obtain ⟨b1, b2⟩ := wfK_bounds hw
  obtain ⟨w1, w2⟩ := hw
  rcases α with _ | ⟨ta, ga⟩
  · rw [kAddStep_none, kgen_none]
    exact ⟨⟨w1, w2⟩, by omega, h2, by omega, by omega⟩
  · rw [kAddStep_some, kgen_some]
    by_cases hf : ga > kgen s.1
    · rw [if_pos hf]
      have hga : 0 ≤ ga := by omega
      by_cases hd : kgen s.2 < ga
      · rw [if_pos hd]
        refine ⟨⟨?_, ?_⟩, ?_, ?_, ?_, ?_⟩
        · intro en he
          cases he
          exact hga
        · intro en he
          cases he
        · rw [show ((some (ta, ga), (none : Option Entry)) : KS).1 = some (ta, ga) from rfl,
            kgen_some]
          omega
        · rw [show ((some (ta, ga), (none : Option Entry)) : KS).2 = none from rfl,
            kgen_none]
          omega
        · rw [show ((some (ta, ga), (none : Option Entry)) : KS).1 = some (ta, ga) from rfl,
            show ((some (ta, ga), (none : Option Entry)) : KS).2 = none from rfl,
            kgen_some, kgen_none]
          omega
        · rw [show ((some (ta, ga), (none : Option Entry)) : KS).1 = some (ta, ga) from rfl,
            show ((some (ta, ga), (none : Option Entry)) : KS).2 = none from rfl,
            kgen_some, kgen_none]
          omega
      · rw [if_neg hd]
        refine ⟨⟨?_, ?_⟩, ?_, ?_, ?_, ?_⟩
        · intro en he
          cases he
          exact hga
        · intro en he
          exact w2 en he
        · rw [show ((some (ta, ga), s.2) : KS).1 = some (ta, ga) from rfl, kgen_some]
          omega
        · show kgen s.2 ≤ R
          omega
        · rw [show ((some (ta, ga), s.2) : KS).1 = some (ta, ga) from rfl, kgen_some]
          show max ga (kgen s.2) = max (max A ga) R
          omega
        · rw [show ((some (ta, ga), s.2) : KS).1 = some (ta, ga) from rfl, kgen_some]
          show max A ga ≤ R → ga ≤ kgen s.2
          omega
    · rw [if_neg hf]
      exact ⟨⟨w1, w2⟩, by omega, h2, by omega, by omega⟩

theorem kInv_remStep (ρ : Option Entry) {s : KS} {A R : Int}
    (h : kInv s A R) : kInv (kRemStep ρ s) A (max R (kgen ρ)) := by
  obtain ⟨hw, h1, h2, h3, h4⟩ := h
  obtain ⟨b1, b2⟩ := wfK_bounds hw
  obtain ⟨w1, w2⟩ := hw
  rcases ρ with _ | ⟨tr, gr⟩
  · rw [kRemStep_none, kgen_none]
    exact ⟨⟨w1, w2⟩, h1, by omega, by omega, by omega⟩
  · rw [kRemStep_some, kgen_some]
    by_cases hf : gr > kgen s.2
    · rw [if_pos hf]
      have hgr : 0 ≤ gr := by omega
      by_cases hd : kgen s.1 < gr
      · rw [if_pos hd]
        refine ⟨⟨?_, ?_⟩, ?_, ?_, ?_, ?_⟩
        · intro en he
          cases he
        · intro en he
          cases he
          exact hgr
        · rw [show (((none : Option Entry), some (tr, gr)) : KS).1 = none from rfl, kgen_none]
          omega
        · rw [show (((none : Option Entry), some (tr, gr)) : KS).2 = some (tr, gr) from rfl,
            kgen_some]
          omega
        · rw [show (((none : Option Entry), some (tr, gr)) : KS).1 = none from rfl,
            show (((none : Option Entry), some (tr, gr)) : KS).2 = some (tr, gr) from rfl,
            kgen_none, kgen_some]
          omega
        · rw [show (((none : Option Entry), some (tr, gr)) : KS).1 = none from rfl,
            show (((none : Option Entry), some (tr, gr)) : KS).2 = some (tr, gr) from rfl,
            kgen_none, kgen_some]
          omega
      · rw [if_neg hd]
        refine ⟨⟨?_, ?_⟩, ?_, ?_, ?_, ?_⟩
        · intro en he
          exact w1 en he
        · intro en he
          cases he
          exact hgr
        · show kgen s.1 ≤ A
          omega
        · rw [show ((s.1, some (tr, gr)) : KS).2 = some (tr, gr) from rfl, kgen_some]
          omega
        · rw [show ((s.1, some (tr, gr)) : KS).2 = some (tr, gr) from rfl, kgen_some]
          show max (kgen s.1) gr = max A (max R gr)
          omega
        · rw [show ((s.1, some (tr, gr)) : KS).2 = some (tr, gr) from rfl, kgen_some]
          show A ≤ max R gr → kgen s.1 ≤ gr
          omega
    · rw [if_neg hf]
      exact ⟨⟨w1, w2⟩, h1, by omega, by omega, by omega⟩

theorem kInv_active {s : KS} {A R : Int} (h : kInv s A R) :
    kActive s = decide (A > R) := by
  obtain ⟨hw, h1, h2, h3, h4⟩ := h
  obtain ⟨w1, w2⟩ := hw
  rcases hs1 : s.1 with _ | en1 <;> rcases hs2 : s.2 with _ | en2 <;>
    rw [hs1] at h1 h3 h4 <;> rw [hs2] at h2 h3 h4 <;>
    unfold kActive <;> rw [hs1, hs2] <;>
    simp only [kgen_none, kgen_some_entry] at h1 h2 h3 h4 ⊢
  · simp only [Option.isSome_none, Bool.false_and]
    symm
    simp only [decide_eq_false_iff_not]
    omega
  · have hg2 := w2 en2 hs2
    simp only [Option.isSome_none, Bool.false_and]
    symm
    simp only [decide_eq_false_iff_not]
    omega
  · have hg1 := w1 en1 hs1
    simp only [Option.isSome_some, Option.isNone_none, Bool.true_and, Bool.true_or]
    symm
    simp only [decide_eq_true_eq]
    omega
  · have hg1 := w1 en1 hs1
    have hg2 := w2 en2 hs2
    simp only [Option.isSome_some, Option.isNone_some, Bool.true_and, Bool.false_or,
      decide_eq_decide]
    omega

theorem kInv_merge (α ρ : Option Entry) {s : KS} {A R : Int}
    (h : kInv s A R) : kInv (kMerge α ρ s) (max A (kgen α)) (max R (kgen ρ)) :=
  kInv_remStep ρ (kInv_addStep α h)

/-- Commutativity of the per-key active bit under two merges, for
wellformed states. -/
theorem kComm_active (ax rx ay ry : Option Entry) {s : KS} (h : wfK s) :
    kActive (kMerge ay ry (kMerge ax rx s)) =
    kActive (kMerge ax rx (kMerge ay ry s)) := by
  have h1 := kInv_merge ay ry (kInv_merge ax rx (kInv_init h))
  have h2 := kInv_merge ax rx (kInv_merge ay ry (kInv_init h))
  rw [kInv_active h1, kInv_active h2]
  have e1 : max (max (kgen s.1) (kgen ax)) (kgen ay) =
      max (max (kgen s.1) (kgen ay)) (kgen ax) := by omega
  have e2 : max (max (kgen s.2) (kgen rx)) (kgen ry) =
      max (max (kgen s.2) (kgen ry)) (kgen rx) := by omega
  rw [e1, e2]

theorem kAddStep_fst_ge (ta ga : Int) (s : KS) :
    ga ≤ kgen (kAddStep (some (ta, ga)) s).1 := by
  rw [kAddStep_some]
  by_cases hf : ga > kgen s.1
  · rw [if_pos hf]
    show ga ≤ kgen (some (ta, ga))
    rw [kgen_some]
  · rw [if_neg hf]
    omega

theorem kRemStep_snd_ge (tr gr : Int) (t : KS) :
    gr ≤ kgen (kRemStep (some (tr, gr)) t).2 := by
  rw [kRemStep_some]
  by_cases hf : gr > kgen t.2
  · rw [if_pos hf]
    show gr ≤ kgen (some (tr, gr))
    rw [kgen_some]
  · rw [if_neg hf]
    omega

theorem kRemStep_fst_cases (tr gr : Int) (t : KS) :
    (kRemStep (some (tr, gr)) t).1 = t.1 ∨
    ((kRemStep (some (tr, gr)) t).1 = none ∧ kgen t.1 < gr ∧
      (kRemStep (some (tr, gr)) t).2 = some (tr, gr)) := by
  rw [kRemStep_some]
  by_cases hf : gr > kgen t.2
  · rw [if_pos hf]
    by_cases hd : kgen t.1 < gr
    · right
      rw [if_pos hd]
      exact ⟨rfl, hd, rfl⟩
    · left
      rw [if_neg hd]
  · rw [if_neg hf]
    left
    rfl

/-- Idempotence of the per-key merge on the removed component and the
active bit. -/
theorem kIdem_merge (α ρ : Option Entry) (s : KS) :
    (kMerge α ρ (kMerge α ρ s)).2 = (kMerge α ρ s).2 ∧
    kActive (kMerge α ρ (kMerge α ρ s)) = kActive (kMerge α ρ s) := by
  rcases α with _ | ⟨ta, ga⟩
  · rcases ρ with _ | ⟨tr, gr⟩
    · exact ⟨rfl, rfl⟩
    · have hge := kRemStep_snd_ge tr gr (kAddStep none s)
      have hnf : ¬ (gr > kgen (kMerge none (some (tr, gr)) s).2) := by
        show ¬ (gr > kgen (kRemStep (some (tr, gr)) (kAddStep none s)).2)
        omega
      have hfix : kMerge none (some (tr, gr)) (kMerge none (some (tr, gr)) s) =
          kMerge none (some (tr, gr)) s := by
        show kRemStep _ (kAddStep none _) = _
        rw [kAddStep_none, kRemStep_some, if_neg hnf]
      rw [hfix]
      exact ⟨rfl, rfl⟩
  · rcases ρ with _ | ⟨tr, gr⟩
    · have hge := kAddStep_fst_ge ta ga s
      have hs1 : kMerge (some (ta, ga)) none s = kAddStep (some (ta, ga)) s := by
        show kRemStep none _ = _
        rw [kRemStep_none]
      have hnf : ¬ (ga > kgen (kMerge (some (ta, ga)) none s).1) := by
        rw [hs1]
        omega
      have hfix : kMerge (some (ta, ga)) none (kMerge (some (ta, ga)) none s) =
          kMerge (some (ta, ga)) none s := by
        show kRemStep none (kAddStep _ _) = _
        rw [kRemStep_none, kAddStep_some, if_neg hnf]
      rw [hfix]
      exact ⟨rfl, rfl⟩
    · have hge_a := kAddStep_fst_ge ta ga s
      have hge_r := kRemStep_snd_ge tr gr (kAddStep (some (ta, ga)) s)
      have hm : kMerge (some (ta, ga)) (some (tr, gr)) s =
          kRemStep (some (tr, gr)) (kAddStep (some (ta, ga)) s) := rfl
      rcases kRemStep_fst_cases tr gr (kAddStep (some (ta, ga)) s) with
        hcase | ⟨hnone, hlt, hsnd⟩
      · have hnf : ¬ (ga > kgen (kMerge (some (ta, ga)) (some (tr, gr)) s).1) := by
          rw [hm, hcase]
          omega
        have hnf2 : ¬ (gr > kgen (kMerge (some (ta, ga)) (some (tr, gr)) s).2) := by
          rw [hm]
          omega
        have hfix : kMerge (some (ta, ga)) (some (tr, gr))
            (kMerge (some (ta, ga)) (some (tr, gr)) s) =
            kMerge (some (ta, ga)) (some (tr, gr)) s := by
          show kRemStep _ (kAddStep _ _) = _
          rw [kAddStep_some, if_neg hnf, kRemStep_some, if_neg hnf2]
        rw [hfix]
        exact ⟨rfl, rfl⟩
      · rw [← hm] at hnone hsnd hge_r
        by_cases hfa : ga > kgen (kMerge (some (ta, ga)) (some (tr, gr)) s).1
        · have hkeep : ¬ (kgen (kMerge (some (ta, ga)) (some (tr, gr)) s).2 < ga) := by
            rw [hsnd, kgen_some]
            omega
          have hstep : kAddStep (some (ta, ga))
              (kMerge (some (ta, ga)) (some (tr, gr)) s) =
              (some (ta, ga), (kMerge (some (ta, ga)) (some (tr, gr)) s).2) := by
            rw [kAddStep_some, if_pos hfa, if_neg hkeep]
          have hnf2 : ¬ (gr > kgen ((some (ta, ga),
              (kMerge (some (ta, ga)) (some (tr, gr)) s).2) : KS).2) := by
            show ¬ (gr > kgen (kMerge (some (ta, ga)) (some (tr, gr)) s).2)
            omega
          have hres : kMerge (some (ta, ga)) (some (tr, gr))
              (kMerge (some (ta, ga)) (some (tr, gr)) s) =
              (some (ta, ga), (kMerge (some (ta, ga)) (some (tr, gr)) s).2) := by
            show kRemStep _ (kAddStep _ _) = _
            rw [hstep, kRemStep_some, if_neg hnf2]
          rw [hres]
          refine ⟨rfl, ?_⟩
          unfold kActive
          simp only [hnone, hsnd]
          have hf : kgen ((some (ta, ga),
              (kMerge (some (ta, ga)) (some (tr, gr)) s).2) : KS).2 =
              kgen (kMerge (some (ta, ga)) (some (tr, gr)) s).2 := rfl
          have hg : kgen (some (ta, ga)) = ga := rfl
          have hh : kgen (some (tr, gr)) = gr := rfl
          simp [kgen_some]
          omega
        · have hfix : kMerge (some (ta, ga)) (some (tr, gr))
              (kMerge (some (ta, ga)) (some (tr, gr)) s) =
              kMerge (some (ta, ga)) (some (tr, gr)) s := by
            show kRemStep _ (kAddStep _ _) = _
            rw [kAddStep_some, if_neg hfa, kRemStep_some,
              if_neg (by omega : ¬ (gr > kgen (kMerge (some (ta, ga)) (some (tr, gr)) s).2))]
          rw [hfix]
          exact ⟨rfl, rfl⟩

/-! ### Projection of the engine merge onto one key -/

theorem mergeAddedEntry_eq (st : Engine) (q : String) (ts g : Int) :
    mergeAddedEntry st (q, (ts, g)) =
      if g > kgen (alookup st.added q) then
        { st with added := upsert st.added q (ts, g),
                  removed :=
                    match alookup st.removed q with
                    | some (_, rg) => if rg < g then adelete st.removed q
                                      else st.removed
                    | none => st.removed }
      else st := by
  unfold mergeAddedEntry
  simp only [kgen_getD]

theorem mergeRemovedEntry_eq (st : Engine) (q : String) (ts g : Int) :
    mergeRemovedEntry st (q, (ts, g)) =
      if g > kgen (alookup st.removed q) then
        { st with removed := upsert st.removed q (ts, g),
                  added :=
                    match alookup st.added q with
                    | some (_, ag) => if ag < g then adelete st.added q
                                      else st.added
                    | none => st.added }
      else st := by
  unfold mergeRemovedEntry
  simp only [kgen_getD]

theorem kproj_mergeAddedEntry (st : Engine) (q : String) (ts g : Int)
    (p : String) :
    kproj (mergeAddedEntry st (q, (ts, g))) p =
      if q = p then kAddStep (some (ts, g)) (kproj st p) else kproj st p := by
  rw [mergeAddedEntry_eq, kAddStep_some]
  by_cases hf : g > kgen (alookup st.added q)
  · rw [if_pos hf]
    by_cases hqp : q = p
    · subst hqp
      rw [if_pos rfl, if_pos (show g > kgen (kproj st q).1 from hf)]
      unfold kproj
      rw [Prod.mk.injEq]
      constructor
      · rw [alookup_upsert, if_pos rfl]
      · show alookup _ q = if kgen (alookup st.removed q) < g then none
          else alookup st.removed q
        rcases hr : alookup st.removed q with _ | ⟨tsr, rg⟩
        · simp [hr, kgen_none]
        · simp only [hr, kgen_some]
          by_cases hd : rg < g
          · rw [if_pos hd, if_pos hd, alookup_adelete, if_pos rfl]
          · rw [if_neg hd, if_neg hd]
            exact hr
    · rw [if_neg hqp]
      unfold kproj
      rw [Prod.mk.injEq]
      constructor
      · rw [alookup_upsert, if_neg hqp]
      · show alookup _ p = alookup st.removed p
        rcases hr : alookup st.removed q with _ | ⟨tsr, rg⟩
        · simp [hr]
        · simp only [hr]
          by_cases hd : rg < g
          · rw [if_pos hd, alookup_adelete, if_neg hqp]
          · rw [if_neg hd]
  · rw [if_neg hf]
    by_cases hqp : q = p
    · subst hqp
      rw [if_pos rfl, if_neg (show ¬ g > kgen (kproj st q).1 from hf)]
    · rw [if_neg hqp]

theorem kproj_mergeRemovedEntry (st : Engine) (q : String) (ts g : Int)
    (p : String) :
    kproj (mergeRemovedEntry st (q, (ts, g))) p =
      if q = p then kRemStep (some (ts, g)) (kproj st p) else kproj st p := by
  rw [mergeRemovedEntry_eq, kRemStep_some]
  by_cases hf : g > kgen (alookup st.removed q)
  · rw [if_pos hf]
    by_cases hqp : q = p
    · subst hqp
      rw [if_pos rfl, if_pos (show g > kgen (kproj st q).2 from hf)]
      unfold kproj
      rw [Prod.mk.injEq]
      constructor
      · show alookup _ q = if kgen (alookup st.added q) < g then none
          else alookup st.added q
        rcases ha : alookup st.added q with _ | ⟨tsa, ag⟩
        · simp [ha, kgen_none]
        · simp only [ha, kgen_some]
          by_cases hd : ag < g
          · rw [if_pos hd, if_pos hd, alookup_adelete, if_pos rfl]
          · rw [if_neg hd, if_neg hd]
            exact ha
      · rw [alookup_upsert, if_pos rfl]
    · rw [if_neg hqp]
      unfold kproj
      rw [Prod.mk.injEq]
      constructor
      · show alookup _ p = alookup st.added p
        rcases ha : alookup st.added q with _ | ⟨tsa, ag⟩
        · simp [ha]
        · simp only [ha]
          by_cases hd : ag < g
          · rw [if_pos hd, alookup_adelete, if_neg hqp]
          · rw [if_neg hd]
      · rw [alookup_upsert, if_neg hqp]
  · rw [if_neg hf]
    by_cases hqp : q = p
    · subst hqp
      rw [if_pos rfl, if_neg (show ¬ g > kgen (kproj st q).2 from hf)]
    · rw [if_neg hqp]

theorem mergeAddedEntry_fields (st : Engine) (ent : String × Entry) :
    (mergeAddedEntry st ent).id = st.id ∧
    (mergeAddedEntry st ent).joined = st.joined ∧
    (mergeAddedEntry st ent).time = st.time ∧
    (mergeAddedEntry st ent).generation = st.generation ∧
    (mergeAddedEntry st ent).waiting = st.waiting ∧
    (mergeAddedEntry st ent).active = st.active := by
  obtain ⟨q, ts, g⟩ := ent
  rw [mergeAddedEntry_eq]
  by_cases hf : g > kgen (alookup st.added q)
  · rw [if_pos hf]
    exact ⟨rfl, rfl, rfl, rfl, rfl, rfl⟩
  · rw [if_neg hf]
    exact ⟨rfl, rfl, rfl, rfl, rfl, rfl⟩

theorem mergeRemovedEntry_fields (st : Engine) (ent : String × Entry) :
    (mergeRemovedEntry st ent).id = st.id ∧
    (mergeRemovedEntry st ent).joined = st.joined ∧
    (mergeRemovedEntry st ent).time = st.time ∧
    (mergeRemovedEntry st ent).generation = st.generation ∧
    (mergeRemovedEntry st ent).waiting = st.waiting ∧
    (mergeRemovedEntry st ent).active = st.active := by
  obtain ⟨q, ts, g⟩ := ent
  rw [mergeRemovedEntry_eq]
  by_cases hf : g > kgen (alookup st.removed q)
  · rw [if_pos hf]
    exact ⟨rfl, rfl, rfl, rfl, rfl, rfl⟩
  · rw [if_neg hf]
    exact ⟨rfl, rfl, rfl, rfl, rfl, rfl⟩

theorem foldl_mergeAdded_fields (l : Sample) (st : Engine) :
    (l.foldl mergeAddedEntry st).id = st.id ∧
    (l.foldl mergeAddedEntry st).joined = st.joined ∧
    (l.foldl mergeAddedEntry st).time = st.time ∧
    (l.foldl mergeAddedEntry st).generation = st.generation ∧
    (l.foldl mergeAddedEntry st).waiting = st.waiting ∧
    (l.foldl mergeAddedEntry st).active = st.active := by
  induction l generalizing st with
  | nil => exact ⟨rfl, rfl, rfl, rfl, rfl, rfl⟩
  | cons e t ih =>
    have h1 := mergeAddedEntry_fields st e
    have h2 := ih (mergeAddedEntry st e)
    rw [List.foldl_cons]
    exact ⟨h2.1.trans h1.1, h2.2.1.trans h1.2.1, h2.2.2.1.trans h1.2.2.1,
      h2.2.2.2.1.trans h1.2.2.2.1, h2.2.2.2.2.1.trans h1.2.2.2.2.1,
      h2.2.2.2.2.2.trans h1.2.2.2.2.2⟩

theorem foldl_mergeRemoved_fields (l : Sample) (st : Engine) :
    (l.foldl mergeRemovedEntry st).id = st.id ∧
    (l.foldl mergeRemovedEntry st).joined = st.joined ∧
    (l.foldl mergeRemovedEntry st).time = st.time ∧
    (l.foldl mergeRemovedEntry st).generation = st.generation ∧
    (l.foldl mergeRemovedEntry st).waiting = st.waiting ∧
    (l.foldl mergeRemovedEntry st).active = st.active := by
  induction l generalizing st with
  | nil => exact ⟨rfl, rfl, rfl, rfl, rfl, rfl⟩
  | cons e t ih =>
    have h1 := mergeRemovedEntry_fields st e
    have h2 := ih (mergeRemovedEntry st e)
    rw [List.foldl_cons]
    exact ⟨h2.1.trans h1.1, h2.2.1.trans h1.2.1, h2.2.2.1.trans h1.2.2.1,
      h2.2.2.2.1.trans h1.2.2.2.1, h2.2.2.2.2.1.trans h1.2.2.2.2.1,
      h2.2.2.2.2.2.trans h1.2.2.2.2.2⟩

theorem kproj_foldl_mergeAdded_not_mem (l : Sample) (st : Engine)
    (p : String) (h : alookup l p = none) :
    kproj (l.foldl mergeAddedEntry st) p = kproj st p := by
  induction l generalizing st with
  | nil => rfl
  | cons e t ih =>
    obtain ⟨q, ts, g⟩ := e
    rw [alookup_cons] at h
    by_cases hqp : q = p
    · rw [if_pos hqp] at h
      cases h
    · rw [if_neg hqp] at h
      rw [List.foldl_cons, ih _ h, kproj_mergeAddedEntry, if_neg hqp]

theorem kproj_foldl_mergeRemoved_not_mem (l : Sample) (st : Engine)
    (p : String) (h : alookup l p = none) :
    kproj (l.foldl mergeRemovedEntry st) p = kproj st p := by
  induction l generalizing st with
  | nil => rfl
  | cons e t ih =>
    obtain ⟨q, ts, g⟩ := e
    rw [alookup_cons] at h
    by_cases hqp : q = p
    · rw [if_pos hqp] at h
      cases h
    · rw [if_neg hqp] at h
      rw [List.foldl_cons, ih _ h, kproj_mergeRemovedEntry, if_neg hqp]

theorem kproj_foldl_mergeAdded (l : Sample) (st : Engine) (p : String)
    (h : (l.map Prod.fst).Nodup) :
    kproj (l.foldl mergeAddedEntry st) p = kAddStep (alookup l p) (kproj st p) := by
  induction l generalizing st with
  | nil => rfl
  | cons e t ih =>
    obtain ⟨q, ts, g⟩ := e
    rw [List.map_cons, List.nodup_cons] at h
    obtain ⟨hq, ht⟩ := h
    rw [List.foldl_cons, alookup_cons]
    by_cases hqp : q = p
    · rw [if_pos hqp]
      have hnone : alookup t p = none := by
        rw [alookup_eq_none_iff, ← hqp]
        exact hq
      rw [kproj_foldl_mergeAdded_not_mem t _ p hnone, kproj_mergeAddedEntry,
        if_pos hqp]
    · rw [if_neg hqp, ih _ ht, kproj_mergeAddedEntry, if_neg hqp]

theorem kproj_foldl_mergeRemoved (l : Sample) (st : Engine) (p : String)
    (h : (l.map Prod.fst).Nodup) :
    kproj (l.foldl mergeRemovedEntry st) p = kRemStep (alookup l p) (kproj st p) := by
  induction l generalizing st with
  | nil => rfl
  | cons e t ih =>
    obtain ⟨q, ts, g⟩ := e
    rw [List.map_cons, List.nodup_cons] at h
    obtain ⟨hq, ht⟩ := h
    rw [List.foldl_cons, alookup_cons]
    by_cases hqp : q = p
    · rw [if_pos hqp]
      have hnone : alookup t p = none := by
        rw [alookup_eq_none_iff, ← hqp]
        exact hq
      rw [kproj_foldl_mergeRemoved_not_mem t _ p hnone, kproj_mergeRemovedEntry,
        if_pos hqp]
    · rw [if_neg hqp, ih _ ht, kproj_mergeRemovedEntry, if_neg hqp]

theorem kproj_merge_crdt (e : Engine) (addS remS : Sample) (t : Int)
    (p : String) (ha : (addS.map Prod.fst).Nodup)
    (hr : (remS.map Prod.fst).Nodup) :
    kproj (merge_crdt_sample e addS remS t) p =
      kMerge (alookup addS p) (alookup remS p) (kproj e p) := by
  unfold merge_crdt_sample kMerge
  have h1 : kproj { e with time := max e.time t } p = kproj e p := rfl
  rw [show kproj { remS.foldl mergeRemovedEntry
        (addS.foldl mergeAddedEntry { e with time := max e.time t }) with
        active := get_active_members
          (remS.foldl mergeRemovedEntry
            (addS.foldl mergeAddedEntry { e with time := max e.time t })).added
          (remS.foldl mergeRemovedEntry
            (addS.foldl mergeAddedEntry { e with time := max e.time t })).removed } p =
      kproj (remS.foldl mergeRemovedEntry
        (addS.foldl mergeAddedEntry { e with time := max e.time t })) p from rfl]
  rw [kproj_foldl_mergeRemoved _ _ _ hr, kproj_foldl_mergeAdded _ _ _ ha, h1]

theorem merge_crdt_time (e : Engine) (addS remS : Sample) (t : Int) :
    (merge_crdt_sample e addS remS t).time = max e.time t := by
  unfold merge_crdt_sample
  have h1 := foldl_mergeRemoved_fields remS
    (addS.foldl mergeAddedEntry { e with time := max e.time t })
  have h2 := foldl_mergeAdded_fields addS { e with time := max e.time t }
  exact h1.2.2.1.trans h2.2.2.1

theorem merge_crdt_waiting (e : Engine) (addS remS : Sample) (t : Int) :
    (merge_crdt_sample e addS remS t).waiting = e.waiting := by
  unfold merge_crdt_sample
  have h1 := foldl_mergeRemoved_fields remS
    (addS.foldl mergeAddedEntry { e with time := max e.time t })
  have h2 := foldl_mergeAdded_fields addS { e with time := max e.time t }
  exact h1.2.2.2.2.1.trans h2.2.2.2.2.1

theorem merge_crdt_active (e : Engine) (addS remS : Sample) (t : Int) :
    (merge_crdt_sample e addS remS t).active =
      get_active_members (merge_crdt_sample e addS remS t).added
        (merge_crdt_sample e addS remS t).removed := rfl

theorem mem_active_merge_crdt (e : Engine) (addS remS : Sample) (t : Int)
    (p : String) (ha : (addS.map Prod.fst).Nodup)
    (hr : (remS.map Prod.fst).Nodup) :
    p ∈ (merge_crdt_sample e addS remS t).active ↔
      kActive (kMerge (alookup addS p) (alookup remS p) (kproj e p)) = true := by
  rw [merge_crdt_active, mem_get_active_members,
    show (alookup (merge_crdt_sample e addS remS t).added p,
        alookup (merge_crdt_sample e addS remS t).removed p) =
      kproj (merge_crdt_sample e addS remS t) p from rfl,
    kproj_merge_crdt e addS remS t p ha hr]

theorem mark_added_waiting (e : Engine) (p : String) (ts : Int) :
    (mark_added e p ts).waiting = e.waiting := rfl

theorem mark_removed_waiting (e : Engine) (p : String) (ts : Int) :
    (mark_removed e p ts).waiting = e.waiting := rfl

/-- After _mark_removed(p, ts), the added entry for p is gone exactly when
its generation was below the fresh generation. -/
theorem mark_removed_added_none_iff (e : Engine) (p : String) (ts : Int) :
    alookup (mark_removed e p ts).added p = none ↔
      (alookup e.added p = none ∨
        ∃ tsa ga, alookup e.added p = some (tsa, ga) ∧
          ga < e.generation + 1) := by
  show alookup (match alookup e.added p with
    | some (_, ag) => if e.generation + 1 > ag then adelete e.added p
                      else e.added
    | none => e.added) p = none ↔ _
  rcases ha : alookup e.added p with _ | ⟨tsa, ga⟩
  · simp [ha]
  · simp only [ha]
    by_cases hd : e.generation + 1 > ga
    · rw [if_pos hd, alookup_adelete, if_pos rfl]
      simp only [true_iff]
      right
      exact ⟨tsa, ga, rfl, by omega⟩
    · rw [if_neg hd]
      rw [ha]
      constructor
      · intro hx
        cases hx
      · rintro (hx | ⟨tsa1, ga1, hx, hlt⟩)
        · cases hx
        · injection hx with hx1
          injection hx1 with hxa hxb
          subst hxb
          omega

/-! ### Claims -/

/-- C1: for every engine state (in particular every reachable one), the
GET_MEMBERS query replies locally with the set computed by
_get_active_members, and a ProcessId p belongs to that set exactly when p
is a key of the added register and either p is not a key of the removed
register or added[p].generation > removed[p].generation. -/
theorem c1_get_members_active_set (e : Engine) (samp : Reg → Sample)
    (now : Int) (p : String) :
    on_local_message samp now e LMsg.getMembers =
      (e, ⟨[], [get_active_members e.added e.removed], [], []⟩) ∧
    (p ∈ get_active_members e.added e.removed ↔
      ∃ tsa ga, alookup e.added p = some (tsa, ga) ∧
        (alookup e.removed p = none ∨
          ∃ tsr gr, alookup e.removed p = some (tsr, gr) ∧ ga > gr)) := by
  constructor
  · rfl
  · rw [mem_get_active_members]
    unfold kActive
    rcases ha : alookup e.added p with _ | ⟨tsa, ga⟩ <;>
      rcases hr : alookup e.removed p with _ | ⟨tsr, gr⟩ <;>
        simp [kgen_none, kgen_some, kgen_some_entry]
    constructor
    · intro hgt
      exact ⟨tsa, ga, rfl, tsr, gr, rfl, hgt⟩
    · rintro ⟨tsa1, ga1, h1, tsr1, gr1, h2, h3⟩
      injection h1 with h1a h1b
      injection h2 with h2a h2b
      subst h1b
      subst h2b
      exact h3

/-- C6: a PING carrying a target other than self is, after the payload
merge, relayed verbatim to that target with no PING_ANSWER and no
learn-sender step; a PING whose target equals self is handled exactly as a
direct PING. -/
theorem c6_indirect_ping_relay :
    (∀ samp now e sender addS remS tv tg, tg ≠ e.id →
      on_ping samp now e sender addS remS tv (some tg) =
        (merge_crdt_sample e (addS.getD []) (remS.getD []) (tv.getD 0),
          ⟨[(Msg.ping addS remS tv (some tg), tg)], [], [], []⟩)) ∧
    (∀ samp now e sender addS remS tv,
      on_ping samp now e sender addS remS tv (some e.id) =
        on_ping samp now e sender addS remS tv none) := by
  constructor
  · intro samp now e sender addS remS tv tg h
    simp only [on_ping]
    rw [if_neg h]
  · intro samp now e sender addS remS tv
    simp only [on_ping]
    simp

/-- C6 witness: a concrete relay with target b at engine a. -/
theorem c6_indirect_ping_relay_witness :
    ("b" : String) ≠ (initEngine "a").id ∧
    on_ping samp0 0 (initEngine "a") "c" none none none (some "b") =
      (merge_crdt_sample (initEngine "a") [] [] 0,
        ⟨[(Msg.ping none none none (some "b"), "b")], [], [], []⟩) :=
  ⟨by decide, c6_indirect_ping_relay.1 samp0 0 (initEngine "a") "c"
    none none none "b" (by decide)⟩

/-- C8: missing added, removed or time fields on a PING or PING_ANSWER are
processed with the defaults empty sample and zero time: the resulting
engine state always agrees with the fully-defaulted message, and for a
PING without a target field (and for every PING_ANSWER) the entire
behavior, reply included, agrees. -/
theorem c8_missing_fields_defaults :
    (∀ samp now e sender remS tv tg,
      (on_ping samp now e sender none remS tv tg).1 =
        (on_ping samp now e sender (some []) remS tv tg).1) ∧
    (∀ samp now e sender addS tv tg,
      (on_ping samp now e sender addS none tv tg).1 =
        (on_ping samp now e sender addS (some []) tv tg).1) ∧
    (∀ samp now e sender addS remS tg,
      (on_ping samp now e sender addS remS none tg).1 =
        (on_ping samp now e sender addS remS (some 0) tg).1) ∧
    (∀ samp now e sender remS tv,
      on_ping samp now e sender none remS tv none =
        on_ping samp now e sender (some []) remS tv none) ∧
    (∀ samp now e sender addS tv,
      on_ping samp now e sender addS none tv none =
        on_ping samp now e sender addS (some []) tv none) ∧
    (∀ samp now e sender addS remS,
      on_ping samp now e sender addS remS none none =
        on_ping samp now e sender addS remS (some 0) none) ∧
    (∀ samp now e sender remS tv,
      on_ping_answer samp now e sender none remS tv =
        on_ping_answer samp now e sender (some []) remS tv) ∧
    (∀ samp now e sender addS tv,
      on_ping_answer samp now e sender addS none tv =
        on_ping_answer samp now e sender addS (some []) tv) ∧
    (∀ samp now e sender addS remS,
      on_ping_answer samp now e sender addS remS none =
        on_ping_answer samp now e sender addS remS (some 0)) := by
  refine ⟨?_, ?_, ?_, fun _ _ _ _ _ _ => rfl, fun _ _ _ _ _ _ => rfl,
    fun _ _ _ _ _ _ => rfl, fun _ _ _ _ _ _ => rfl, fun _ _ _ _ _ _ => rfl,
    fun _ _ _ _ _ _ => rfl⟩ <;>
  · intro samp now e sender x y tg
    rcases tg with _ | target
    · rfl
    · simp only [on_ping]
      by_cases htg : target = e.id
      · simp only [if_pos htg]
        rfl
      · simp only [if_neg htg]
        rfl

/-- C9: a PING_ANSWER from a peer with a live suspicion entry resets that
entry to 0, and a later ping_<peer> timer fire on an entry equal to 0 is a
complete no-op: no state change, no sends, no timer operations, so the
peer is neither escalated nor marked removed. -/
theorem c9_cleared_suspicion_timer_noop :
    (∀ samp now e sender addS remS tv, e.waiting sender > 0 →
      (on_ping_answer samp now e sender addS remS tv).1.waiting sender = 0) ∧
    (∀ samp chooser now e target, e.waiting target = 0 →
      on_timer samp chooser now e (TimerId.pingT target) = (e, emptyOut)) := by
  constructor
  · intro samp now e sender addS remS tv h
    have hm := merge_crdt_waiting e (addS.getD []) (remS.getD []) (tv.getD 0)
    simp only [on_ping_answer, hm, if_pos h]
    by_cases hc : (alookup (merge_crdt_sample e (addS.getD []) (remS.getD [])
        (tv.getD 0)).added sender).isNone
    · simp only [if_pos hc, mark_added_waiting]
      simp
    · simp only [if_neg hc]
      simp
  · intro samp chooser now e target h
    simp only [on_timer, h]
    norm_num

/-- C9 witness: engine a suspecting b clears the entry on b's answer, and
a ping_x fire with no suspicion entry leaves the initial engine alone. -/
theorem c9_cleared_suspicion_timer_noop_witness :
    ({ initEngine "a" with waiting := fun q => if q = "b" then 1 else 0 } :
      Engine).waiting "b" > 0 ∧
    (on_ping_answer samp0 0
      { initEngine "a" with waiting := fun q => if q = "b" then 1 else 0 }
      "b" none none none).1.waiting "b" = 0 ∧
    (initEngine "a").waiting "x" = 0 ∧
    on_timer samp0 chooser0 0 (initEngine "a") (TimerId.pingT "x") =
      (initEngine "a", emptyOut) :=
  ⟨by decide,
    c9_cleared_suspicion_timer_noop.1 samp0 0
      { initEngine "a" with waiting := fun q => if q = "b" then 1 else 0 }
      "b" none none none (by decide),
    by decide,
    c9_cleared_suspicion_timer_noop.2 samp0 chooser0 0 (initEngine "a") "x"
      (by decide)⟩

/-- C3 counterexample: after a successful JOIN{seed: "a"} at engine "a",
delivering the same self-referential JOIN again re-runs group creation and
increments the generation from 1 to 2, so the engine state is not left
unchanged. -/
theorem c3_counterexample :
    (on_local_message samp0 0 (initEngine "a") (LMsg.join "a")).1.joined = true ∧
    (on_local_message samp0 0 (initEngine "a") (LMsg.join "a")).1.generation = 1 ∧
    (on_local_message samp0 0
      (on_local_message samp0 0 (initEngine "a") (LMsg.join "a")).1
      (LMsg.join "a")).1.generation = 2 := by
  decide

/-- C3 amended: a further JOIN with seed ≠ self while joined is a complete
no-op, but a JOIN with seed = self is handled by _create_group
unconditionally: it sends no messages yet changes the state (the
generation increments). -/
theorem c3_join_idempotence_amended :
    (∀ samp now e seed, e.joined = true → seed ≠ e.id →
      on_local_message samp now e (LMsg.join seed) = (e, emptyOut)) ∧
    (∀ samp now e, e.joined = true →
      (on_local_message samp now e (LMsg.join e.id)).2.sends = [] ∧
      (on_local_message samp now e (LMsg.join e.id)).1.generation =
        e.generation + 1) := by
  constructor
  · intro samp now e seed hj hs
    simp only [on_local_message, if_neg hs, join_group, if_pos hj]
  · intro samp now e hj
    simp only [on_local_message, if_pos rfl, create_group]
    exact ⟨rfl, rfl⟩

/-- C3 witness: at a freshly joined engine "a", a JOIN with seed "b" is a
no-op and a JOIN with seed "a" increments the generation to 2. -/
theorem c3_join_idempotence_amended_witness :
    ((on_local_message samp0 0 (initEngine "a") (LMsg.join "a")).1.joined
      = true) ∧
    ("b" : String) ≠ (on_local_message samp0 0 (initEngine "a")
      (LMsg.join "a")).1.id ∧
    on_local_message samp0 0
        (on_local_message samp0 0 (initEngine "a") (LMsg.join "a")).1
        (LMsg.join "b") =
      ((on_local_message samp0 0 (initEngine "a") (LMsg.join "a")).1,
        emptyOut) ∧
    (on_local_message samp0 0
      (on_local_message samp0 0 (initEngine "a") (LMsg.join "a")).1
      (LMsg.join ((on_local_message samp0 0 (initEngine "a")
        (LMsg.join "a")).1.id))).1.generation =
      (on_local_message samp0 0 (initEngine "a")
        (LMsg.join "a")).1.generation + 1 :=
  ⟨by decide, by decide,
    c3_join_idempotence_amended.1 samp0 0
      (on_local_message samp0 0 (initEngine "a") (LMsg.join "a")).1 "b"
      (by decide) (by decide),
    (c3_join_idempotence_amended.2 samp0 0
      (on_local_message samp0 0 (initEngine "a") (LMsg.join "a")).1
      (by decide)).2⟩

/-- C10 amended: immediately after _mark_removed(p, ts) the ProcessId p is
never in the cached active set, and the added entry for p has been deleted
exactly when its generation was below the fresh generation; an added entry
whose generation was imported by a merge and is at least generation + 1
survives. -/
theorem c10_mark_removed_amended (e : Engine) (p : String) (ts : Int) :
    p ∉ (mark_removed e p ts).active ∧
    (alookup (mark_removed e p ts).added p = none ↔
      (alookup e.added p = none ∨
        ∃ tsa ga, alookup e.added p = some (tsa, ga) ∧
          ga < e.generation + 1)) := by
  constructor
  · show p ∉ sdiscard e.active p
    rw [mem_sdiscard]
    rintro ⟨-, hne⟩
    exact hne rfl
  · exact mark_removed_added_none_iff e p ts

/-- The engine "a" after JOIN{seed: "a"}. -/
def c10_e1 : Engine :=
  (on_local_message samp0 0 (initEngine "a") (LMsg.join "a")).1

/-- c10_e1 after a PING from "c" whose added sample carries "b" with
merge-imported generation 100. -/
def c10_e2 : Engine :=
  (on_message samp0 0 c10_e1 "c"
    (Msg.ping (some [("b", ((0 : Int), (100 : Int)))]) none none none)).1

/-- c10_e2 after the periodic probe timer fires and the chooser picks "b"
as the probe target. -/
def c10_e3 : Engine :=
  (on_timer samp0 chooser0 0 c10_e2 TimerId.periodicPing).1

/-- c10_e3 after the suspicion timer for "b" fires once (escalation to the
indirect probe). -/
def c10_e4 : Engine :=
  (on_timer samp0 chooser0 0 c10_e3 (TimerId.pingT "b")).1

/-- c10_e4 after the suspicion timer for "b" fires again: this handler
calls _mark_removed("b", now). -/
def c10_e5 : Engine :=
  (on_timer samp0 chooser0 0 c10_e4 (TimerId.pingT "b")).1

/-- C10 counterexample: in the reachable state c10_e4, the timer fire
calls _mark_removed("b", 0) (the suspicion state of "b" is 2), yet
immediately afterwards the added register still holds "b" with the
merge-imported generation 100, because the fresh generation 3 does not
exceed it.  The cached active set does lose "b". -/
theorem c10_counterexample :
    c10_e4.waiting "b" = 2 ∧
    c10_e4.generation = 2 ∧
    alookup c10_e5.added "b" = some ((0 : Int), (100 : Int)) ∧
    "b" ∉ c10_e5.active := by
  decide

/-- C2 counterexample: from the initial engine "a", merging a PING from
"b" with removed sample {c: gen 5} and then a PING from "b" with added
sample {c: gen 3} reaches a state in which both added[c] and removed[c]
are present, and the entry with the lower generation (added[c], gen 3) has
not been deleted. -/
theorem c2_counterexample :
    alookup (on_message samp0 0
      (on_message samp0 0 (initEngine "a") "b"
        (Msg.ping none (some [("c", ((0 : Int), (5 : Int)))]) none none)).1
      "b"
      (Msg.ping (some [("c", ((0 : Int), (3 : Int)))]) none none none)).1.added
      "c" = some ((0 : Int), (3 : Int)) ∧
    alookup (on_message samp0 0
      (on_message samp0 0 (initEngine "a") "b"
        (Msg.ping none (some [("c", ((0 : Int), (5 : Int)))]) none none)).1
      "b"
      (Msg.ping (some [("c", ((0 : Int), (3 : Int)))]) none none none)).1.removed
      "c" = some ((0 : Int), (5 : Int)) := by
  decide

/-- C2 amended: the opposite register entry is deleted exactly under the
dominance test the code applies — _mark_removed deletes added[p] iff its
generation is below the fresh one, _mark_added deletes removed[p] iff its
timestamp is strictly below the new one, and an overwriting merge entry
deletes the opposite entry iff that entry's generation is strictly below
the incoming one — so both entries for a ProcessId can be present at
once. -/
theorem c2_at_most_one_amended :
    (∀ e p ts, alookup (mark_removed e p ts).added p = none ↔
      (alookup e.added p = none ∨
        ∃ tsa ga, alookup e.added p = some (tsa, ga) ∧
          ga < e.generation + 1)) ∧
    (∀ e p ts, alookup (mark_added e p ts).removed p = none ↔
      (alookup e.removed p = none ∨
        ∃ tsr gr, alookup e.removed p = some (tsr, gr) ∧ tsr < ts)) ∧
    (∀ st q ts g tsr rg, alookup st.removed q = some (tsr, rg) →
      (alookup (mergeAddedEntry st (q, (ts, g))).removed q = none ↔
        (g > kgen (alookup st.added q) ∧ rg < g))) ∧
    (∀ st q ts g tsa ag, alookup st.added q = some (tsa, ag) →
      (alookup (mergeRemovedEntry st (q, (ts, g))).added q = none ↔
        (g > kgen (alookup st.removed q) ∧ ag < g))) := by
  refine ⟨?_, ?_, ?_, ?_⟩
  · intro e p ts
    exact mark_removed_added_none_iff e p ts
  · intro e p ts
    show alookup (match alookup e.removed p with
      | some (ts0, _) => if ts > ts0 then adelete e.removed p
                         else e.removed
      | none => e.removed) p = none ↔ _
    rcases hr : alookup e.removed p with _ | ⟨tsr, gr⟩
    · simp [hr]
    · simp only [hr]
      by_cases hd : ts > tsr
      · rw [if_pos hd, alookup_adelete, if_pos rfl]
        simp only [true_iff]
        right
        exact ⟨tsr, gr, rfl, by omega⟩
      · rw [if_neg hd]
        rw [hr]
        constructor
        · intro hx
          cases hx
        · rintro (hx | ⟨tsr1, gr1, hx, hlt⟩)
          · cases hx
          · injection hx with hx1
            injection hx1 with hxa hxb
            subst hxa
            omega
  · intro st q ts g tsr rg hr
    rw [mergeAddedEntry_eq]
    by_cases hf : g > kgen (alookup st.added q)
    · rw [if_pos hf]
      show alookup (match alookup st.removed q with
        | some (_, rg) => if rg < g then adelete st.removed q
                          else st.removed
        | none => st.removed) q = none ↔ _
      simp only [hr]
      by_cases hd : rg < g
      · rw [if_pos hd, alookup_adelete, if_pos rfl]
        simp only [true_iff]
        exact ⟨hf, hd⟩
      · rw [if_neg hd, hr]
        constructor
        · intro hx
          cases hx
        · rintro ⟨-, hd2⟩
          exact absurd hd2 hd
    · rw [if_neg hf]
      rw [hr]
      constructor
      · intro hx
        cases hx
      · rintro ⟨hf2, -⟩
        exact absurd hf2 hf
  · intro st q ts g tsa ag ha
    rw [mergeRemovedEntry_eq]
    by_cases hf : g > kgen (alookup st.removed q)
    · rw [if_pos hf]
      show alookup (match alookup st.added q with
        | some (_, ag) => if ag < g then adelete st.added q
                          else st.added
        | none => st.added) q = none ↔ _
      simp only [ha]
      by_cases hd : ag < g
      · rw [if_pos hd, alookup_adelete, if_pos rfl]
        simp only [true_iff]
        exact ⟨hf, hd⟩
      · rw [if_neg hd, ha]
        constructor
        · intro hx
          cases hx
        · rintro ⟨-, hd2⟩
          exact absurd hd2 hd
    · rw [if_neg hf]
      rw [ha]
      constructor
      · intro hx
        cases hx
      · rintro ⟨hf2, -⟩
        exact absurd hf2 hf

/-- C2 witness: concrete instances of all three dominance rules. -/
theorem c2_at_most_one_amended_witness :
    alookup (mark_removed
      ⟨"a", false, 0, 0, [("c", ((0 : Int), (0 : Int)))], [], fun _ => 0, []⟩
      "c" 0).added "c" = none ∧
    alookup (mark_added
      ⟨"a", false, 0, 0, [], [("c", ((5 : Int), (1 : Int)))], fun _ => 0, []⟩
      "c" 7).removed "c" = none ∧
    alookup (mergeAddedEntry
      ⟨"a", false, 0, 0, [], [("c", ((0 : Int), (2 : Int)))], fun _ => 0, []⟩
      ("c", ((0 : Int), (3 : Int)))).removed "c" = none ∧
    alookup (mergeRemovedEntry
      ⟨"a", false, 0, 0, [("c", ((0 : Int), (2 : Int)))], [], fun _ => 0, []⟩
      ("c", ((0 : Int), (3 : Int)))).added "c" = none :=
  ⟨(c2_at_most_one_amended.1
      ⟨"a", false, 0, 0, [("c", ((0 : Int), (0 : Int)))], [], fun _ => 0, []⟩
      "c" 0).mpr (Or.inr ⟨0, 0, by decide, by decide⟩),
    (c2_at_most_one_amended.2.1
      ⟨"a", false, 0, 0, [], [("c", ((5 : Int), (1 : Int)))], fun _ => 0, []⟩
      "c" 7).mpr (Or.inr ⟨5, 1, by decide, by decide⟩),
    (c2_at_most_one_amended.2.2.1
      ⟨"a", false, 0, 0, [], [("c", ((0 : Int), (2 : Int)))], fun _ => 0, []⟩
      "c" 0 3 0 2 (by decide)).mpr ⟨by decide, by decide⟩,
    (c2_at_most_one_amended.2.2.2
      ⟨"a", false, 0, 0, [("c", ((0 : Int), (2 : Int)))], [], fun _ => 0, []⟩
      "c" 0 3 0 2 (by decide)).mpr ⟨by decide, by decide⟩⟩

/-- C4 counterexample: merging the payload (added {p: gen 3},
removed {p: gen 5}) into the empty engine once deletes added[p] (the
removed pass dominates), but merging it a second time re-inserts
added[p] = gen 3, so the registers differ between one and two
applications. -/
theorem c4_counterexample :
    alookup (merge_crdt_sample (initEngine "a")
      [("p", ((0 : Int), (3 : Int)))] [("p", ((0 : Int), (5 : Int)))]
      0).added "p" = none ∧
    alookup (merge_crdt_sample
      (merge_crdt_sample (initEngine "a")
        [("p", ((0 : Int), (3 : Int)))] [("p", ((0 : Int), (5 : Int)))] 0)
      [("p", ((0 : Int), (3 : Int)))] [("p", ((0 : Int), (5 : Int)))]
      0).added "p" = some ((0 : Int), (3 : Int)) := by
  decide

/-- C4 amended: applying _merge_crdt_sample with the same payload twice
yields the same watermark, the same removed register, and the same active
set as applying it once; the added register may differ, since the second
pass can re-insert a dominated added entry that the first merge's removed
pass deleted (such an entry never enters the active set). -/
theorem c4_merge_idempotent_amended (e : Engine) (addS remS : Sample)
    (t : Int) (ha : (addS.map Prod.fst).Nodup)
    (hr : (remS.map Prod.fst).Nodup) :
    (merge_crdt_sample (merge_crdt_sample e addS remS t) addS remS t).time =
      (merge_crdt_sample e addS remS t).time ∧
    (∀ p, alookup (merge_crdt_sample (merge_crdt_sample e addS remS t)
        addS remS t).removed p =
      alookup (merge_crdt_sample e addS remS t).removed p) ∧
    (∀ p, p ∈ (merge_crdt_sample (merge_crdt_sample e addS remS t)
        addS remS t).active ↔
      p ∈ (merge_crdt_sample e addS remS t).active) := by
  refine ⟨?_, ?_, ?_⟩
  · rw [merge_crdt_time, merge_crdt_time]
    omega
  · intro p
    show (kproj (merge_crdt_sample (merge_crdt_sample e addS remS t)
        addS remS t) p).2 =
      (kproj (merge_crdt_sample e addS remS t) p).2
    rw [kproj_merge_crdt _ addS remS t p ha hr,
      kproj_merge_crdt e addS remS t p ha hr]
    exact (kIdem_merge (alookup addS p) (alookup remS p) (kproj e p)).1
  · intro p
    rw [mem_active_merge_crdt _ addS remS t p ha hr,
      mem_active_merge_crdt e addS remS t p ha hr,
      kproj_merge_crdt e addS remS t p ha hr,
      (kIdem_merge (alookup addS p) (alookup remS p) (kproj e p)).2]

/-- C4 witness: the amended idempotence at the counterexample payload. -/
theorem c4_merge_idempotent_amended_witness :
    (([("p", ((0 : Int), (3 : Int)))].map Prod.fst).Nodup) ∧
    (([("p", ((0 : Int), (5 : Int)))].map Prod.fst).Nodup) ∧
    alookup (merge_crdt_sample
      (merge_crdt_sample (initEngine "a")
        [("p", ((0 : Int), (3 : Int)))] [("p", ((0 : Int), (5 : Int)))] 0)
      [("p", ((0 : Int), (3 : Int)))] [("p", ((0 : Int), (5 : Int)))]
      0).removed "p" =
    alookup (merge_crdt_sample (initEngine "a")
      [("p", ((0 : Int), (3 : Int)))] [("p", ((0 : Int), (5 : Int)))]
      0).removed "p" :=
  ⟨by decide, by decide,
    (c4_merge_idempotent_amended (initEngine "a")
      [("p", ((0 : Int), (3 : Int)))] [("p", ((0 : Int), (5 : Int)))] 0
      (by decide) (by decide)).2.1 "p"⟩

/-- C5 counterexample: merging x = (added {p: gen 3}) and then
y = (removed {p: gen 5}) deletes added[p], while merging y then x leaves
added[p] = gen 3 in place, so the two orders disagree on the added
register. -/
theorem c5_counterexample :
    alookup (merge_crdt_sample
      (merge_crdt_sample (initEngine "a")
        [("p", ((0 : Int), (3 : Int)))] [] 0)
      [] [("p", ((0 : Int), (5 : Int)))] 0).added "p" = none ∧
    alookup (merge_crdt_sample
      (merge_crdt_sample (initEngine "a")
        [] [("p", ((0 : Int), (5 : Int)))] 0)
      [("p", ((0 : Int), (3 : Int)))] [] 0).added "p" =
      some ((0 : Int), (3 : Int)) := by
  decide

/-- C5 amended: for engine states whose register entries carry
non-negative generations (an invariant of all reachable states), applying
_merge_crdt_sample with payloads x then y yields the same watermark and
the same active set as applying y then x; the registers themselves may
differ between the two orders. -/
theorem c5_merge_commutative_amended (e : Engine)
    (ax rx : Sample) (tx : Int) (ay ry : Sample) (ty : Int)
    (hax : (ax.map Prod.fst).Nodup) (hrx : (rx.map Prod.fst).Nodup)
    (hay : (ay.map Prod.fst).Nodup) (hry : (ry.map Prod.fst).Nodup)
    (hwa : ∀ p tsa ga, alookup e.added p = some (tsa, ga) → 0 ≤ ga)
    (hwr : ∀ p tsr gr, alookup e.removed p = some (tsr, gr) → 0 ≤ gr) :
    (merge_crdt_sample (merge_crdt_sample e ax rx tx) ay ry ty).time =
      (merge_crdt_sample (merge_crdt_sample e ay ry ty) ax rx tx).time ∧
    (∀ p, p ∈ (merge_crdt_sample (merge_crdt_sample e ax rx tx)
        ay ry ty).active ↔
      p ∈ (merge_crdt_sample (merge_crdt_sample e ay ry ty)
        ax rx tx).active) := by
  constructor
  · rw [merge_crdt_time, merge_crdt_time, merge_crdt_time, merge_crdt_time]
    omega
  · intro p
    rw [mem_active_merge_crdt _ ay ry ty p hay hry,
      mem_active_merge_crdt _ ax rx tx p hax hrx,
      kproj_merge_crdt e ax rx tx p hax hrx,
      kproj_merge_crdt e ay ry ty p hay hry]
    have hwf : wfK (kproj e p) := by
      constructor
      · intro en hen
        obtain ⟨tsa, ga⟩ := en
        exact hwa p tsa ga hen
      · intro en hen
        obtain ⟨tsr, gr⟩ := en
        exact hwr p tsr gr hen
    rw [kComm_active (alookup ax p) (alookup rx p) (alookup ay p)
      (alookup ry p) hwf]

/-- C5 witness: the amended commutativity at the counterexample payloads
over the initial engine. -/
theorem c5_merge_commutative_amended_witness :
    (∀ p tsa ga, alookup (initEngine "a").added p = some (tsa, ga) →
      0 ≤ ga) ∧
    (merge_crdt_sample (merge_crdt_sample (initEngine "a")
        [("p", ((0 : Int), (3 : Int)))] [] 0)
      [] [("p", ((0 : Int), (5 : Int)))] 0).time =
    (merge_crdt_sample (merge_crdt_sample (initEngine "a")
        [] [("p", ((0 : Int), (5 : Int)))] 0)
      [("p", ((0 : Int), (3 : Int)))] [] 0).time :=
  ⟨fun p tsa ga h => Option.noConfusion h,
    (c5_merge_commutative_amended (initEngine "a")
      [("p", ((0 : Int), (3 : Int)))] [] 0
      [] [("p", ((0 : Int), (5 : Int)))] 0
      (by decide) (by decide) (by decide) (by decide)
      (fun p tsa ga h => Option.noConfusion h)
      (fun p tsr gr h => Option.noConfusion h)).1⟩

/-- C7: when the suspicion timer ping_<target> fires, state 1
(awaiting the direct answer) moves the target to state 2, sends one PING
payload extended with the target field to at most K helpers drawn from the
active set minus self and target, and re-arms the timer for T*S; state 2
(awaiting the indirect answer) calls _mark_removed(target, now), erases
the suspicion entry, and emits nothing at all. -/
theorem c7_suspicion_timer_fire :
    (∀ samp chooser now e target, e.waiting target = 1 →
      (on_timer samp chooser now e (TimerId.pingT target)).1.waiting target
        = 2 ∧
      (∀ q, q ≠ target →
        (on_timer samp chooser now e (TimerId.pingT target)).1.waiting q =
          e.waiting q) ∧
      (on_timer samp chooser now e (TimerId.pingT target)).1.added =
        e.added ∧
      (on_timer samp chooser now e (TimerId.pingT target)).1.removed =
        e.removed ∧
      (on_timer samp chooser now e (TimerId.pingT target)).1.active =
        e.active ∧
      (on_timer samp chooser now e (TimerId.pingT target)).1.generation =
        e.generation ∧
      (on_timer samp chooser now e (TimerId.pingT target)).1.time =
        e.time ∧
      (∃ helpers : List String,
        (on_timer samp chooser now e (TimerId.pingT target)).2.sends =
          helpers.map (fun r => (Msg.ping (some (samp e.added))
            (some (samp e.removed)) (some e.time) (some target), r)) ∧
        helpers.length ≤ K ∧
        (∀ q, q ∈ helpers → q ∈ e.active ∧ q ≠ e.id ∧ q ≠ target)) ∧
      (on_timer samp chooser now e (TimerId.pingT target)).2.timers =
        [(TimerId.pingT target, T * S)] ∧
      (on_timer samp chooser now e (TimerId.pingT target)).2.locals = [] ∧
      (on_timer samp chooser now e (TimerId.pingT target)).2.cancels = []) ∧
    (∀ samp chooser now e target, e.waiting target = 2 →
      (on_timer samp chooser now e (TimerId.pingT target)).1.waiting target
        = 0 ∧
      (∀ q, q ≠ target →
        (on_timer samp chooser now e (TimerId.pingT target)).1.waiting q =
          e.waiting q) ∧
      (on_timer samp chooser now e (TimerId.pingT target)).1.added =
        (mark_removed e target now).added ∧
      (on_timer samp chooser now e (TimerId.pingT target)).1.removed =
        (mark_removed e target now).removed ∧
      (on_timer samp chooser now e (TimerId.pingT target)).1.active =
        (mark_removed e target now).active ∧
      (on_timer samp chooser now e (TimerId.pingT target)).1.generation =
        (mark_removed e target now).generation ∧
      (on_timer samp chooser now e (TimerId.pingT target)).1.time =
        (mark_removed e target now).time ∧
      (on_timer samp chooser now e (TimerId.pingT target)).2 = emptyOut) := by
  constructor
  · intro samp chooser now e target h
    simp only [on_timer]
    rw [if_pos h]
    refine ⟨by simp, ?_, rfl, rfl, rfl, rfl, rfl, ?_, rfl, rfl, rfl⟩
    · intro q hq
      simp [hq]
    · refine ⟨(e.active.filter (fun p => p != e.id && p != target)).take
        (min K (e.active.filter (fun p => p != e.id && p != target)).length),
        rfl, ?_, ?_⟩
      · rw [List.length_take]
        omega
      · intro q hq
        have h1 := List.mem_of_mem_take hq
        rw [List.mem_filter] at h1
        obtain ⟨hmem, hcond⟩ := h1
        rw [Bool.and_eq_true, bne_iff_ne, bne_iff_ne] at hcond
        exact ⟨hmem, hcond.1, hcond.2⟩
  · intro samp chooser now e target h
    simp only [on_timer]
    rw [if_neg (show ¬ e.waiting target = 1 by omega), if_pos h]
    refine ⟨by simp, ?_, rfl, rfl, rfl, rfl, rfl, rfl⟩
    intro q hq
    simp [hq, mark_removed_waiting]

/-- C7 witness: at an engine suspecting "b" in state 1 the fire escalates
to state 2, and in state 2 the fire erases the entry and emits nothing. -/
theorem c7_suspicion_timer_fire_witness :
    ({ initEngine "a" with waiting := fun q => if q = "b" then 1 else 0 } :
      Engine).waiting "b" = 1 ∧
    (on_timer samp0 chooser0 0
      { initEngine "a" with waiting := fun q => if q = "b" then 1 else 0 }
      (TimerId.pingT "b")).1.waiting "b" = 2 ∧
    ({ initEngine "a" with waiting := fun q => if q = "b" then 2 else 0 } :
      Engine).waiting "b" = 2 ∧
    (on_timer samp0 chooser0 0
      { initEngine "a" with waiting := fun q => if q = "b" then 2 else 0 }
      (TimerId.pingT "b")).1.waiting "b" = 0 :=
  ⟨by decide,
    (c7_suspicion_timer_fire.1 samp0 chooser0 0
      { initEngine "a" with waiting := fun q => if q = "b" then 1 else 0 }
      "b" (by decide)).1,
    by decide,
    (c7_suspicion_timer_fire.2 samp0 chooser0 0
      { initEngine "a" with waiting := fun q => if q = "b" then 2 else 0 }
      "b" (by decide)).1⟩
